import Mathlib

set_option maxRecDepth 10000

/-!
Verification development for the `memora` session/memory core
(`src/memora/session_manager.py`, `src/memora/memory_manager.py`,
`src/memora/cli.py`).

Python text values are embedded as `List Char` so that every string
operation the source uses (`strip`, `lower`, `upper`, `split`, slicing,
`in`, `replace`, `join`) is a structurally recursive Lean function that
the kernel can evaluate.  The ASCII-only difference between Python's
Unicode-aware `lower`/`strip` and `Char.toLower`/`Char.isWhitespace` is
immaterial for every property treated here.

JSON files on disk are embedded at the parse level: a session file is
`absent`, `corrupt` (exists but fails `json.loads`) or `valid s`
(exists and decodes to the session `s`); a long-term JSONL line is
`none` (blank or malformed, skipped by the scanner) or `some text`
(decodes to a record whose `text` field is given).  Wall-clock
timestamps (`utc_now_iso`) are passed in as explicit parameters.
-/

namespace Memora

/-- Python text embedded as a list of characters. -/
abbrev Str := List Char

/-- Shorthand for embedding a Lean string literal as Python text. -/
def lit (s : String) : Str := s.toList

/-- Python `s.strip()`: drop leading and trailing whitespace. -/
def pyStrip (s : Str) : Str :=
  ((s.dropWhile Char.isWhitespace).reverse.dropWhile Char.isWhitespace).reverse

/-- Python `s.lower()` (ASCII). -/
def pyLower (s : Str) : Str := s.map Char.toLower

/-- Python `s.upper()` (ASCII). -/
def pyUpper (s : Str) : Str := s.map Char.toUpper

/-- Python `s.replace("\n", " ")`: the single-character pattern case. -/
def flattenNewlines (s : Str) : Str :=
  s.map (fun c => if c = '\n' then ' ' else c)

/-- Python `tok in hay`: substring containment, `true` iff `tok` occurs
contiguously inside `hay` (the empty string is contained everywhere). -/
def strIn (tok : Str) : Str → Bool
  | [] => tok.isEmpty
  | c :: rest => tok.isPrefixOf (c :: rest) || strIn tok rest

/-- Helper for Python `s.split()`: cut at each whitespace character,
keeping the (possibly empty) pieces; `acc` is the current word reversed. -/
def splitWsAux : List Char → List Char → List (List Char)
  | [], acc => [acc.reverse]
  | c :: rest, acc =>
    if c.isWhitespace then acc.reverse :: splitWsAux rest []
    else splitWsAux rest (c :: acc)

/-- Python `s.split()` with no argument: whitespace-separated words,
empty pieces discarded. -/
def pySplitWs (s : Str) : List Str :=
  (splitWsAux s []).filter (fun w => w ≠ [])

/-- Message record: `{role, content}` (session_manager.py stores both as
strings). -/
structure Message where
  role : Str
  content : Str
deriving DecidableEq

/-- Session record with the four keys the store reads and writes
(`session_manager.py::_default_session`); `add_message` establishes the
`conversation`/`summary` keys via `setdefault`, so all four fields are
present on every session this development manipulates. -/
structure Session where
  session_id : Str
  last_updated : Str
  conversation : List Message
  summary : Str
deriving DecidableEq

/-- session_manager.py line 12. -/
def MAX_CONVERSATION_TURNS : Nat := 20

/-- session_manager.py line 13. -/
def KEEP_RECENT_TURNS : Nat := 10

/-- One line of `_compress_messages` (session_manager.py lines 73-78):
strip the content, flatten newlines, truncate to `maxChars` characters
with an ellipsis marker, and render as `"- role: content"`. -/
def compress_message (maxChars : Nat) (m : Message) : Str :=
  let content := flattenNewlines (pyStrip m.content)
  let content :=
    if maxChars < content.length then content.take maxChars ++ lit "..."
    else content
  lit "- " ++ m.role ++ lit ": " ++ content

/-- session_manager.py::_compress_messages with the default
`max_chars_per_item = 220`. -/
def compress_messages (messages : List Message) : Str :=
  List.intercalate (lit "\n") (messages.map (compress_message 220))

/-- session_manager.py::summarize_and_prune (lines 82-102).  Returns the
session the function returns together with the payload written to the
archive file, `none` when no rotation happened.  The source mutates the
session dict in place and then archives *that same dict*, so the archive
payload is the already-mutated session. -/
def summarize_and_prune (now : Str) (session : Session) : Session × Option Session :=
  if session.conversation.length ≤ MAX_CONVERSATION_TURNS then
    (session, none)
  else
    let n := session.conversation.length
    let old_messages := session.conversation.take (n - KEEP_RECENT_TURNS)
    let recent_messages := session.conversation.drop (n - KEEP_RECENT_TURNS)
    let compressed := compress_messages old_messages
    let current_summary := pyStrip session.summary
    let newSummary :=
      if current_summary = [] then
        lit "[Auto summary @ " ++ now ++ lit "]\n" ++ compressed
      else
        current_summary ++ lit "\n\n[Auto summary @ " ++ now ++ lit "]\n" ++ compressed
    let mutated : Session :=
      { session with summary := newSummary, conversation := recent_messages }
    (mutated, some mutated)

/-- State of one JSON file on disk, at the parse level: missing, present
but failing `json.loads`, or present and decoding to a session. -/
inductive FsFile where
  | absent : FsFile
  | corrupt : FsFile
  | valid : Session → FsFile
deriving DecidableEq

/-- The workspace files the session store touches: the active session
file, its one-generation backup, and the append-only archive directory
(modelled as the list of archived payloads, oldest first). -/
structure Store where
  active : FsFile
  backup : FsFile
  archive : List Session
deriving DecidableEq

/-- Errors session_manager.py can raise: `ValueError` from role
validation and `json.JSONDecodeError` from parsing. -/
inductive PyError where
  | valueError : Str → PyError
  | jsonDecodeError : PyError
deriving DecidableEq

/-- session_manager.py::load_session (lines 35-55).  `defa` stands for
the `_default_session()` value (timestamp-dependent, hence a parameter).
Returns the loaded session and the store as left on disk, or the
uncaught `json.JSONDecodeError` raised when the active file is corrupt
and the backup file exists but also fails to parse (line 49 is not
guarded by any `try`). -/
def load_session (defa : Session) (st : Store) : Except PyError (Session × Store) :=
  match st.active with
  | .absent => .ok (defa, { st with active := .valid defa })
  | .valid s => .ok (s, st)
  | .corrupt =>
    match st.backup with
    | .valid recovered => .ok (recovered, { st with active := .valid recovered })
    | .corrupt => .error .jsonDecodeError
    | .absent => .ok (defa, { st with active := .valid defa })

/-- session_manager.py::save_session (lines 58-68): refresh
`last_updated`, copy the current active file bytes (even corrupt ones)
to the backup location when the active file exists, then atomically
write the session.  Returns the session dict as mutated in place. -/
def save_session (now : Str) (session : Session) (st : Store) : Session × Store :=
  let session := { session with last_updated := now }
  let st :=
    if st.active = FsFile.absent then st
    else { st with backup := st.active }
  (session, { st with active := .valid session })

/-- The three role strings accepted by `add_message`. -/
def VALID_ROLES : List Str := [lit "user", lit "assistant", lit "system"]

/-- Python `role.strip().lower()` (session_manager.py line 106). -/
def normalizeRole (role : Str) : Str := pyLower (pyStrip role)

/-- session_manager.py::add_message (lines 105-117).  `tRot` and `tSave`
are the timestamps drawn inside `summarize_and_prune` and
`save_session`.  The store is returned alongside the result so that the
on-disk effect (or its absence, when the call raises) is explicit. -/
def add_message (tRot tSave : Str) (defa : Session) (role content : Str)
    (st : Store) : Except PyError Session × Store :=
  let role := normalizeRole role
  if role ∈ VALID_ROLES then
    match load_session defa st with
    | .error e => (.error e, st)
    | .ok (session, st) =>
      let session :=
        { session with conversation := session.conversation ++ [⟨role, content⟩] }
      let pruned := summarize_and_prune tRot session
      let st := { st with archive := st.archive ++ pruned.2.toList }
      let saved := save_session tSave pruned.1 st
      (.ok saved.1, saved.2)
  else
    (.error (.valueError (lit "role must be one of: user, assistant, system")), st)

/-- Fold a sequence of `(role, content)` appends through `add_message`,
threading the store (a raising call leaves the store untouched, exactly
as the exception would in the source). -/
def runAdds (tRot tSave : Str) (defa : Session) (msgs : List (Str × Str))
    (st : Store) : Store :=
  msgs.foldl (fun acc rc => (add_message tRot tSave defa rc.1 rc.2 acc).2) st

/-- The session held by the active file, when it is valid. -/
def activeSession (st : Store) : Option Session :=
  match st.active with
  | .valid s => some s
  | _ => none

/-- memory_manager.py line 36: whitespace-split the lowered query and
keep tokens longer than one character. -/
def tokenize (user_input : Str) : List Str :=
  (pySplitWs (pyLower user_input)).filter (fun t => 1 < t.length)

/-- memory_manager.py line 53: `sum(1 for token in tokens if token in
lowered)` — each token in the token list contributes 1 when it occurs
in the lowered record text. -/
def lineScore (tokens : List Str) (lowered : Str) : Nat :=
  (tokens.map (fun token => if strIn token lowered then 1 else 0)).sum

/-- The scan of memory_manager.py lines 41-55 over the long-term JSONL
lines.  A line is `none` when the source skips it (blank after strip, or
`json.loads` fails) and `some text` when it decodes to a record with the
given `text` field.  Kept records are paired with their score; records
scoring 0 are dropped. -/
def scoredRecords (tokens : List Str) : List (Option Str) → List (Nat × Str)
  | [] => []
  | none :: rest => scoredRecords tokens rest
  | some text :: rest =>
    let score := lineScore tokens (pyLower text)
    if 0 < score then (score, text) :: scoredRecords tokens rest
    else scoredRecords tokens rest

/-- Ordered insertion for the stable descending sort: the new element
goes in front of the first element whose score it matches or exceeds.
The second component is generic so that the same function can sort
index-annotated copies in the stability proofs. -/
def insertDesc {α : Type} (x : Nat × α) : List (Nat × α) → List (Nat × α)
  | [] => [x]
  | y :: ys => if y.1 ≤ x.1 then x :: y :: ys else y :: insertDesc x ys

/-- memory_manager.py line 57: `scored.sort(key=lambda x: x[0],
reverse=True)`.  Python's sort is stable and `reverse=True` reverses
comparisons only, so ties keep their original order; that input-output
behaviour is realised here by insertion sort whose insert places an
element (which always precedes, in file order, everything already
sorted) in front of equal scores. -/
def sortDesc {α : Type} : List (Nat × α) → List (Nat × α)
  | [] => []
  | x :: xs => insertDesc x (sortDesc xs)

/-- memory_manager.py::_search_longterm_jsonl (lines 31-58).  `log` is
`none` when the JSONL file does not exist, otherwise the list of its
lines at the parse level. -/
def search_longterm_jsonl (user_input : Str) (limit : Nat)
    (log : Option (List (Option Str))) : List Str :=
  match log with
  | none => []
  | some lines =>
    let tokens := tokenize user_input
    if tokens = [] then []
    else ((sortDesc (scoredRecords tokens lines)).take limit).map (fun p => p.2)

/-- memory_manager.py::search_longterm (lines 61-66): bullet-render the
matches or the fixed no-match placeholder. -/
def search_longterm (user_input : Str) (limit : Nat)
    (log : Option (List (Option Str))) : Str :=
  let found := search_longterm_jsonl user_input limit log
  if found = [] then lit "(no relevant long-term memory found)"
  else List.intercalate (lit "\n") (found.map (fun item => lit "- " ++ item))

/-- memory_manager.py::load_core_memory (lines 12-16): empty text when
the core file is absent, otherwise its stripped contents. -/
def load_core_memory (file : Option Str) : Str :=
  match file with
  | none => []
  | some content => pyStrip content

/-- memory_manager.py::format_conversation (lines 19-28). -/
def format_conversation (conversation : List Message) : Str :=
  match conversation with
  | [] => lit "(empty)"
  | msgs =>
    List.intercalate (lit "\n")
      (msgs.map (fun m => lit "[" ++ pyUpper m.role ++ lit "] " ++ pyStrip m.content))

/-- memory_manager.py::build_memory_block (lines 69-81).  The session it
would obtain from `load_session` is passed in directly, and the core
file / long-term log are passed at the parse level. -/
def build_memory_block (user_input : Str) (coreFile : Option Str)
    (session : Session) (log : Option (List (Option Str))) : Str :=
  let core := load_core_memory coreFile
  let longterm := search_longterm user_input 4 log
  List.intercalate (lit "\n\n")
    [ lit "### CORE MEMORY\n" ++ (if core = [] then lit "(empty)" else core),
      lit "### SESSION SUMMARY\n" ++
        (if session.summary = [] then lit "(empty)" else session.summary),
      lit "### RECENT CONVERSATION\n" ++ format_conversation session.conversation,
      lit "### LONG-TERM MEMORY\n" ++ longterm ]

/-- cli.py::build_prompt (lines 27-28): the memory block followed by the
USER REQUEST heading and the literal user input. -/
def build_prompt (user_input : Str) (coreFile : Option Str)
    (session : Session) (log : Option (List (Option Str))) : Str :=
  build_memory_block user_input coreFile session log ++
    lit "\n\n### USER REQUEST\n" ++ user_input

/-- Modelled from the spec: the number of positions of `hay` (its final
empty suffix included) at which `tok` begins, i.e. the count of possibly
overlapping occurrences of `tok` as a substring of `hay`.  This is the
score summand the spec's retrieval algorithm describes ("count of that
token's occurrences as a substring match"), stated here only to be
compared with the source's `lineScore`. -/
def specCountOcc (tok : Str) : Str → Nat
  | [] => if tok.isPrefixOf ([] : Str) then 1 else 0
  | c :: rest => (if tok.isPrefixOf (c :: rest) then 1 else 0) + specCountOcc tok rest

/-- Modelled from the spec: "score = sum over query tokens of the count
of that token's occurrences as a substring match within the lowered
text". -/
def specOccurrenceScore (tokens : List Str) (lowered : Str) : Nat :=
  (tokens.map (fun token => specCountOcc token lowered)).sum

/-- Index annotation used to express sort stability: pair every scored
record with its position in the scanned (file-order) list, keeping the
score first so `sortDesc` compares the same keys. -/
def annotate {α : Type} : Nat → List (Nat × α) → List (Nat × Nat × α)
  | _, [] => []
  | i, (s, t) :: rest => (s, i, t) :: annotate (i + 1) rest

/-- Forget the index annotation. -/
def stripIdx {α : Type} (p : Nat × Nat × α) : Nat × α := (p.1, p.2.2)

/-- Containment agrees with a positive occurrence count: the source's
`token in lowered` holds exactly when the spec's occurrence count for
that token is nonzero. -/
theorem strIn_iff_pos_occ (tok hay : Str) :
    strIn tok hay = true ↔ 0 < specCountOcc tok hay := by
  induction hay with
  | nil =>
    by_cases h : tok = []
    · subst h; simp [strIn, specCountOcc, List.isPrefixOf_iff_prefix]
    · simp [strIn, specCountOcc, List.isPrefixOf_iff_prefix, List.prefix_nil,
        List.isEmpty_iff, h]
  | cons c rest ih =>
    simp only [strIn, specCountOcc, Bool.or_eq_true, ih]
    by_cases h : tok.isPrefixOf (c :: rest) = true
    · rw [if_pos h]
      constructor
      · intro _; omega
      · intro _; exact Or.inl h
    · simp [h]

/-- The source's per-record score counts each query token once when it
occurs at all: it is the number of tokens (with multiplicity in the
token list) whose occurrence count in the lowered text is positive. -/
theorem lineScore_eq_present_token_count (tokens : List Str) (lowered : Str) :
    lineScore tokens lowered =
      (tokens.filter (fun token => decide (0 < specCountOcc token lowered))).length := by
  induction tokens with
  | nil => rfl
  | cons t ts ih =>
    simp only [lineScore, List.map_cons, List.sum_cons, List.filter_cons] at ih ⊢
    by_cases h : strIn t lowered = true
    · have hp : (0 < specCountOcc t lowered) := (strIn_iff_pos_occ t lowered).1 h
      rw [if_pos h, if_pos (by simpa using hp), List.length_cons]
      omega
    · have hp : ¬ (0 < specCountOcc t lowered) := by
        intro hpos
        exact h ((strIn_iff_pos_occ t lowered).2 hpos)
      rw [if_neg h, if_neg (by simpa using hp)]
      omega

/-- Membership in an ordered insertion. -/
theorem insertDesc_perm {α : Type} (x : Nat × α) (l : List (Nat × α)) :
    List.Perm (insertDesc x l) (x :: l) := by
  induction l with
  | nil => simp [insertDesc]
  | cons y ys ih =>
    by_cases h : y.1 ≤ x.1
    · simp [insertDesc, h]
    · rw [insertDesc, if_neg h]
      exact ((ih.cons y).trans (List.Perm.swap x y ys))

/-- The stable sort is a permutation of its input. -/
theorem sortDesc_perm {α : Type} (l : List (Nat × α)) : List.Perm (sortDesc l) l := by
  induction l with
  | nil => simp [sortDesc]
  | cons x xs ih => exact (insertDesc_perm x (sortDesc xs)).trans (ih.cons x)

theorem mem_insertDesc {α : Type} {z x : Nat × α} {l : List (Nat × α)} :
    z ∈ insertDesc x l ↔ z = x ∨ z ∈ l := by
  rw [(insertDesc_perm x l).mem_iff, List.mem_cons]

/-- Ordered insertion preserves the descending-score invariant. -/
theorem insertDesc_sorted {α : Type} {x : Nat × α} {l : List (Nat × α)}
    (hl : l.Pairwise (fun a b => b.1 ≤ a.1)) :
    (insertDesc x l).Pairwise (fun a b => b.1 ≤ a.1) := by
  induction l with
  | nil => simp [insertDesc]
  | cons y ys ih =>
    rcases List.pairwise_cons.1 hl with ⟨hy, hys⟩
    by_cases h : y.1 ≤ x.1
    · rw [insertDesc, if_pos h]
      refine List.pairwise_cons.2 ⟨?_, hl⟩
      intro z hz
      rcases List.mem_cons.1 hz with rfl | hz
      · exact h
      · exact le_trans (hy z hz) h
    · rw [insertDesc, if_neg h]
      refine List.pairwise_cons.2 ⟨?_, ih hys⟩
      intro z hz
      rcases mem_insertDesc.1 hz with rfl | hz
      · omega
      · exact hy z hz

/-- The sort output is descending in the score component. -/
theorem sortDesc_sorted {α : Type} (l : List (Nat × α)) :
    (sortDesc l).Pairwise (fun a b => b.1 ≤ a.1) := by
  induction l with
  | nil => simp [sortDesc]
  | cons x xs ih => exact insertDesc_sorted ih

/-- Strict order used to state stability on index-annotated elements:
either the score strictly drops, or it ties and the original (file)
position strictly grows. -/
def StableRel {α : Type} (a b : Nat × Nat × α) : Prop :=
  b.1 < a.1 ∨ (a.1 = b.1 ∧ a.2.1 < b.2.1)

/-- Inserting an element whose index is smaller than every index already
present keeps the output strictly ordered by score-then-index. -/
theorem insertDesc_stable {α : Type} {x : Nat × Nat × α} {l : List (Nat × Nat × α)}
    (hl : l.Pairwise StableRel) (hx : ∀ y ∈ l, x.2.1 < y.2.1) :
    (insertDesc x l).Pairwise StableRel := by
  induction l with
  | nil => simp [insertDesc]
  | cons y ys ih =>
    rcases List.pairwise_cons.1 hl with ⟨hy, hys⟩
    by_cases h : y.1 ≤ x.1
    · rw [insertDesc, if_pos h]
      refine List.pairwise_cons.2 ⟨?_, hl⟩
      intro z hz
      rcases List.mem_cons.1 hz with hzy | hz
      · subst hzy
        rcases Nat.lt_or_eq_of_le h with hlt | heq
        · exact Or.inl hlt
        · exact Or.inr ⟨heq.symm, hx _ (List.mem_cons_self _ _)⟩
      · rcases hy z hz with hlt | ⟨heq, _⟩
        · exact Or.inl (by omega)
        · by_cases hxy : y.1 = x.1
          · exact Or.inr ⟨by omega, hx _ (List.mem_cons_of_mem _ hz)⟩
          · exact Or.inl (by omega)
    · rw [insertDesc, if_neg h]
      refine List.pairwise_cons.2 ⟨?_, ih hys (fun z hz => hx _ (List.mem_cons_of_mem _ hz))⟩
      intro z hz
      rcases mem_insertDesc.1 hz with hzx | hz
      · subst hzx
        exact Or.inl (by omega)
      · exact hy z hz

/-- Sorting a list whose indices strictly increase yields a list that is
strictly ordered by score descending, ties broken by the original
position: ties preserve the input (file) order. -/
theorem sortDesc_stable {α : Type} {l : List (Nat × Nat × α)}
    (hl : l.Pairwise (fun a b => a.2.1 < b.2.1)) :
    (sortDesc l).Pairwise StableRel := by
  induction l with
  | nil => simp [sortDesc]
  | cons x xs ih =>
    rcases List.pairwise_cons.1 hl with ⟨hx, hxs⟩
    exact insertDesc_stable (ih hxs)
      (fun z hz => hx z ((sortDesc_perm xs).mem_iff.1 hz))

/-- Erasing the index annotation commutes with ordered insertion, since
the comparison only reads the score component. -/
theorem insertDesc_map_stripIdx {α : Type} (x : Nat × Nat × α) (l : List (Nat × Nat × α)) :
    (insertDesc x l).map stripIdx = insertDesc (stripIdx x) (l.map stripIdx) := by
  induction l with
  | nil => simp [insertDesc]
  | cons y ys ih =>
    by_cases h : y.1 ≤ x.1
    · simp [insertDesc, stripIdx, h]
    · simp [insertDesc, stripIdx, h, ih]

/-- Erasing the index annotation commutes with the whole sort. -/
theorem sortDesc_map_stripIdx {α : Type} (l : List (Nat × Nat × α)) :
    (sortDesc l).map stripIdx = sortDesc (l.map stripIdx) := by
  induction l with
  | nil => simp [sortDesc]
  | cons x xs ih =>
    rw [sortDesc, insertDesc_map_stripIdx, ih, List.map_cons, sortDesc]

/-- Annotating and immediately erasing is the identity. -/
theorem annotate_map_stripIdx {α : Type} (i : Nat) (l : List (Nat × α)) :
    (annotate i l).map stripIdx = l := by
  induction l generalizing i with
  | nil => simp [annotate]
  | cons p ps ih => rw [annotate, List.map_cons, ih]; rfl

/-- Every index in `annotate i l` is at least `i`. -/
theorem annotate_le_idx {α : Type} {i : Nat} {l : List (Nat × α)} :
    ∀ p ∈ annotate i l, i ≤ p.2.1 := by
  induction l generalizing i with
  | nil => simp [annotate]
  | cons q qs ih =>
    intro p hp
    rw [annotate] at hp
    rcases List.mem_cons.1 hp with rfl | hp
    · exact Nat.le_refl i
    · exact Nat.le_of_lt (Nat.lt_of_lt_of_le (Nat.lt_succ_self i) (ih p hp))

/-- The annotation carries strictly increasing positions. -/
theorem annotate_idx_sorted {α : Type} (i : Nat) (l : List (Nat × α)) :
    (annotate i l).Pairwise (fun a b => a.2.1 < b.2.1) := by
  induction l generalizing i with
  | nil => simp [annotate]
  | cons q qs ih =>
    rw [annotate]
    refine List.pairwise_cons.2 ⟨?_, ih (i + 1)⟩
    intro p hp
    exact Nat.lt_of_lt_of_le (Nat.lt_succ_self i) (annotate_le_idx p hp)

/-- Every kept record of the scan carries its own score, that score is
positive, and its text is one of the parsed lines. -/
theorem scoredRecords_mem {tokens : List Str} {lines : List (Option Str)}
    {p : Nat × Str} (hp : p ∈ scoredRecords tokens lines) :
    p.1 = lineScore tokens (pyLower p.2) ∧ 0 < p.1 ∧ some p.2 ∈ lines := by
  induction lines with
  | nil => simp [scoredRecords] at hp
  | cons line rest ih =>
    cases line with
    | none =>
      rw [scoredRecords] at hp
      rcases ih hp with ⟨h1, h2, h3⟩
      exact ⟨h1, h2, List.mem_cons_of_mem _ h3⟩
    | some text =>
      rw [scoredRecords] at hp
      by_cases h : 0 < lineScore tokens (pyLower text)
      · rw [if_pos h] at hp
        rcases List.mem_cons.1 hp with rfl | hp
        · exact ⟨rfl, h, List.mem_cons_self _ _⟩
        · rcases ih hp with ⟨h1, h2, h3⟩
          exact ⟨h1, h2, List.mem_cons_of_mem _ h3⟩
      · rw [if_neg h] at hp
        rcases ih hp with ⟨h1, h2, h3⟩
        exact ⟨h1, h2, List.mem_cons_of_mem _ h3⟩

/-- Rotation keeps the most recent message: dropping all but the last
`KEEP_RECENT_TURNS` elements does not change `getLast?`. -/
theorem summarize_and_prune_getLast (now : Str) (s : Session)
    (h : MAX_CONVERSATION_TURNS < s.conversation.length) :
    (summarize_and_prune now s).1.conversation.getLast? = s.conversation.getLast? := by
  rw [summarize_and_prune, if_neg (by omega)]
  simp only [List.getLast?_drop]
  rw [if_neg (by simp [MAX_CONVERSATION_TURNS, KEEP_RECENT_TURNS] at *; omega)]

/-- Below or at the threshold, rotation is a no-op and archives nothing. -/
theorem summarize_and_prune_no_rotation (now : Str) (s : Session)
    (h : s.conversation.length ≤ MAX_CONVERSATION_TURNS) :
    summarize_and_prune now s = (s, none) := by
  rw [summarize_and_prune, if_pos h]

/-- When rotation fires, exactly `KEEP_RECENT_TURNS` messages remain. -/
theorem summarize_and_prune_length (now : Str) (s : Session)
    (h : MAX_CONVERSATION_TURNS < s.conversation.length) :
    (summarize_and_prune now s).1.conversation.length = KEEP_RECENT_TURNS := by
  rw [summarize_and_prune, if_neg (by omega)]
  simp only [List.length_drop]
  simp only [MAX_CONVERSATION_TURNS, KEEP_RECENT_TURNS] at *
  omega

/-- `getLast?` survives any rotation of a nonempty conversation. -/
theorem summarize_and_prune_getLast_of_ne_nil (now : Str) (s : Session)
    (h : s.conversation ≠ []) :
    (summarize_and_prune now s).1.conversation.getLast? = s.conversation.getLast? := by
  by_cases hlen : s.conversation.length ≤ MAX_CONVERSATION_TURNS
  · rw [summarize_and_prune_no_rotation now s hlen]
  · exact summarize_and_prune_getLast now s (by omega)

/-- Invariant the rotation policy maintains on the active file: a valid
active session never holds more than `MAX_CONVERSATION_TURNS` messages. -/
def StoreBounded (st : Store) : Prop :=
  ∀ s, st.active = FsFile.valid s → s.conversation.length ≤ MAX_CONVERSATION_TURNS

/-- One `add_message` call leaves the active conversation at no more
than `MAX_CONVERSATION_TURNS` messages (a raising call leaves the store
untouched; a successful one saves either the appended conversation,
already at most 20 long, or the pruned 10-message tail). -/
theorem add_message_bounded (tRot tSave : Str) (defa : Session)
    (role content : Str) (st : Store) (h : StoreBounded st) :
    StoreBounded (add_message tRot tSave defa role content st).2 := by
  rw [add_message]
  by_cases hr : normalizeRole role ∈ VALID_ROLES
  · rw [if_pos hr]
    cases hload : load_session defa st with
    | error e => exact h
    | ok p =>
      obtain ⟨sess1, st1⟩ := p
      intro s hs
      simp only [save_session] at hs
      injection hs with hs
      subst hs
      by_cases hlen :
          ({ sess1 with conversation :=
              sess1.conversation ++
                [({ role := normalizeRole role, content := content } : Message)]
            } : Session).conversation.length ≤ MAX_CONVERSATION_TURNS
      · rw [summarize_and_prune_no_rotation tRot _ hlen]
        exact hlen
      · rw [summarize_and_prune_length tRot _ (by omega)]
        decide
  · rw [if_neg hr]
    exact h

/-- Folding any sequence of appends preserves the bound on the active
conversation. -/
theorem runAdds_bounded (tRot tSave : Str) (defa : Session)
    (msgs : List (Str × Str)) :
    ∀ st : Store, StoreBounded st →
      StoreBounded (runAdds tRot tSave defa msgs st) := by
  induction msgs with
  | nil => intro st h; exact h
  | cons m ms ih =>
    intro st h
    exact ih _ (add_message_bounded tRot tSave defa m.1 m.2 st h)

/-- Raw byte-level view of the files `save_session` touches
(session_manager.py lines 20-23 and 58-68): the active file, the
temporary file `active_session.json.tmp`, and the backup file, each
`none` when missing and `some bytes` when present. -/
structure RawFs where
  active : Option Str
  tmp : Option Str
  backup : Option Str
deriving DecidableEq

/-- save_session lines 65-66: copy the active file's bytes (whatever
they are) to the backup path when the active file exists. -/
def save_backup_step (fs : RawFs) : RawFs :=
  match fs.active with
  | none => fs
  | some bytes => { fs with backup := some bytes }

/-- _atomic_write_json line 22: write the full serialized payload to the
temporary file. -/
def write_tmp_step (payload : Str) (fs : RawFs) : RawFs :=
  { fs with tmp := some payload }

/-- _atomic_write_json line 23: `tmp_path.replace(path)` — the atomic
rename of the temporary file over the active file. -/
def rename_step (fs : RawFs) : RawFs :=
  { fs with active := fs.tmp, tmp := none }

/-- save_session at the byte level: backup copy, temporary write, then
the rename commit; `payload` is the serialized session. -/
def save_session_raw (payload : Str) (fs : RawFs) : RawFs :=
  rename_step (write_tmp_step payload (save_backup_step fs))

/-- The fixed default session used by the concrete scenarios: empty
conversation and empty summary. -/
def exampleSession : Session := ⟨lit "sid", lit "t0", [], []⟩

/-- A workspace whose active file holds the empty example session. -/
def startStore : Store := ⟨.valid exampleSession, .absent, []⟩

/-- The i-th scenario message: role `user`, content a run of `i` letters
(contents pairwise distinct). -/
def mkMsg (i : Nat) : Message := ⟨lit "user", List.replicate i 'a'⟩

/-- A session holding 25 distinct messages, as left by the spec's
25-append rotation scenario at the moment rotation triggers. -/
def session25 : Session := ⟨lit "sid", lit "t0", (List.range 25).map mkMsg, []⟩

/-- A 21-message session whose summary carries leading whitespace. -/
def session21 : Session := ⟨lit "sid", lit "t0", (List.range 21).map mkMsg, lit " x"⟩

/-- Twenty-five sequential `user` appends. -/
def appends25 : List (Str × Str) := List.replicate 25 (lit "user", ([] : Str))

/-- The spec's retrieval-scenario long-term log, all three lines valid. -/
def ltLines : List (Option Str) :=
  [some (lit "the cat sat on a mat"),
   some (lit "a dog ran fast"),
   some (lit "the cat and the dog played")]

/-- C1, claim as stated is false: rotating a 25-message session archives
a record whose conversation has only 10 messages and no longer contains
the first pre-rotation message, so the archive is not a full snapshot of
the session as it was before rotation mutated it. -/
theorem C1_counterexample :
    MAX_CONVERSATION_TURNS < session25.conversation.length ∧
    mkMsg 0 ∈ session25.conversation ∧
    ((summarize_and_prune (lit "T") session25).2.map
      (fun a => a.conversation.length)) = some 10 ∧
    ((summarize_and_prune (lit "T") session25).2.map
      (fun a => decide (mkMsg 0 ∈ a.conversation))) = some false := by
  refine ⟨by decide, by decide, by decide, by decide⟩

/-- C1 (amended): the rotation archives the post-rotation session — the
archived record is exactly the session `summarize_and_prune` returns,
whose conversation is the last `KEEP_RECENT_TURNS` messages and whose
summary is the merged summary; the pre-rotation conversation is not
archived. -/
theorem C1_archive_is_post_rotation_session (now : Str) (s : Session)
    (h : MAX_CONVERSATION_TURNS < s.conversation.length) :
    (summarize_and_prune now s).2 = some (summarize_and_prune now s).1 ∧
    (summarize_and_prune now s).1.conversation =
      s.conversation.drop (s.conversation.length - KEEP_RECENT_TURNS) := by
  rw [summarize_and_prune, if_neg (by omega)]
  exact ⟨rfl, rfl⟩

/-- C1 witness: the amended statement at the 25-message session. -/
theorem C1_witness :
    MAX_CONVERSATION_TURNS < session25.conversation.length ∧
    ((summarize_and_prune (lit "T") session25).2 =
       some (summarize_and_prune (lit "T") session25).1 ∧
     (summarize_and_prune (lit "T") session25).1.conversation =
       session25.conversation.drop
         (session25.conversation.length - KEEP_RECENT_TURNS)) :=
  ⟨by decide, C1_archive_is_post_rotation_session (lit "T") session25 (by decide)⟩

/-- C2, claim as stated is false: with the active file corrupt and the
backup file present but corrupt, `load_session` raises the backup's
`json.JSONDecodeError` instead of returning a fresh default session. -/
theorem C2_counterexample :
    load_session exampleSession ⟨.corrupt, .corrupt, []⟩ =
      .error .jsonDecodeError := rfl

/-- C2 (amended): when the active file is corrupt, `load_session` falls
back to a fresh default session (persisting it) only when the backup
file does not exist; a parseable backup is recovered and re-persisted,
and a corrupt backup propagates the JSON parse error to the caller. -/
theorem C2_default_only_when_backup_absent (defa : Session) (ar : List Session) :
    load_session defa ⟨.corrupt, .absent, ar⟩ =
      .ok (defa, ⟨.valid defa, .absent, ar⟩) ∧
    (∀ bs : Session,
      load_session defa ⟨.corrupt, .valid bs, ar⟩ =
        .ok (bs, ⟨.valid bs, .valid bs, ar⟩)) ∧
    load_session defa ⟨.corrupt, .corrupt, ar⟩ = .error .jsonDecodeError :=
  ⟨rfl, fun _ => rfl, rfl⟩

/-- C3, claim as stated is false: for query token `cat` and record text
`cat cat`, the token occurs twice as a substring (spec score 2) but the
source counts the token once for being contained at all (score 1). -/
theorem C3_counterexample :
    tokenize (lit "cat") = [lit "cat"] ∧
    lineScore (tokenize (lit "cat")) (pyLower (lit "cat cat")) = 1 ∧
    specOccurrenceScore (tokenize (lit "cat")) (pyLower (lit "cat cat")) = 2 := by
  refine ⟨by decide, by decide, by decide⟩

/-- C3 (amended): the retrieval score of a record is the number of query
tokens (with multiplicity in the token list) that occur at least once as
a substring of the lowercased text — each token contributes 1, however
many times it occurs, not its occurrence count. -/
theorem C3_score_counts_each_token_once (tokens : List Str) (lowered : Str) :
    lineScore tokens lowered =
      (tokens.filter (fun token => decide (0 < specCountOcc token lowered))).length :=
  lineScore_eq_present_token_count tokens lowered

/-- C4, claim as stated is false: 25 sequential appends (N = 25 > 20)
starting from an empty session leave the active conversation with 14
messages — rotation fires at the 21st append (leaving 10) and the last
four appends grow the tail again — so the final length is not ≤ 10. -/
theorem C4_counterexample :
    20 < appends25.length ∧
    ((activeSession (runAdds (lit "T") (lit "S") exampleSession appends25 startStore)).map
      (fun s => s.conversation.length)) = some 14 ∧
    ¬ (14 ≤ 10) := by
  refine ⟨by decide, by decide, by decide⟩

/-- C4 (amended): immediately after any rotation the conversation has
exactly `KEEP_RECENT_TURNS` (10) messages, and because rotation is
evaluated on every append, any sequence of appends starting from a
session of at most `MAX_CONVERSATION_TURNS` (20) messages keeps the
active conversation at most 20 long (not 10). -/
theorem C4_rotation_and_append_bounds (now tRot tSave : Str) (defa : Session)
    (s : Session) (msgs : List (Str × Str)) (st : Store)
    (hrot : MAX_CONVERSATION_TURNS < s.conversation.length)
    (hst : StoreBounded st) :
    (summarize_and_prune now s).1.conversation.length = KEEP_RECENT_TURNS ∧
    StoreBounded (runAdds tRot tSave defa msgs st) :=
  ⟨summarize_and_prune_length now s hrot,
   runAdds_bounded tRot tSave defa msgs st hst⟩

/-- C4 witness: the amended statement at the 25-message session and the
25-append run from the empty workspace. -/
theorem C4_witness :
    (MAX_CONVERSATION_TURNS < session25.conversation.length ∧ StoreBounded startStore) ∧
    ((summarize_and_prune (lit "T") session25).1.conversation.length =
        KEEP_RECENT_TURNS ∧
      StoreBounded (runAdds (lit "T") (lit "S") exampleSession appends25 startStore)) :=
  ⟨⟨by decide, fun s hs => by
      injection hs with hs
      subst hs
      decide⟩,
   C4_rotation_and_append_bounds (lit "T") (lit "T") (lit "S") exampleSession
     session25 appends25 startStore (by decide)
     (fun s hs => by
       injection hs with hs
       subst hs
       decide)⟩

/-- C5: the rename is the sole commit point. Interrupting a save after
the backup copy, or after the temporary file is fully written but before
the rename, leaves the active file's bytes unchanged (hence it still
parses as the prior session), while a completed save leaves exactly the
new payload at the active path. -/
theorem C5_atomic_commit (fs : RawFs) (payload : Str) :
    (save_backup_step fs).active = fs.active ∧
    (write_tmp_step payload (save_backup_step fs)).active = fs.active ∧
    (write_tmp_step payload (save_backup_step fs)).tmp = some payload ∧
    (save_session_raw payload fs).active = some payload := by
  cases h : fs.active <;>
    simp [save_backup_step, write_tmp_step, rename_step, save_session_raw, h]

/-- C6: the composed prompt is the four labeled sections in fixed order
separated by blank lines — each empty source rendering its fixed
placeholder (`(empty)` for core memory, summary and conversation,
`(no relevant long-term memory found)` for retrieval) — followed by the
literal user input under the USER REQUEST heading at the end; in the
all-empty scenario the input `hello` occurs exactly once. -/
theorem C6_prompt_structure :
    (∀ input : Str, build_prompt input none exampleSession none =
      lit "### CORE MEMORY\n(empty)\n\n### SESSION SUMMARY\n(empty)\n\n### RECENT CONVERSATION\n(empty)\n\n### LONG-TERM MEMORY\n(no relevant long-term memory found)\n\n### USER REQUEST\n"
        ++ input) ∧
    load_core_memory none = [] ∧
    format_conversation [] = lit "(empty)" ∧
    (∀ (q : Str) (lim : Nat),
      search_longterm q lim none = lit "(no relevant long-term memory found)") ∧
    specCountOcc (lit "hello")
      (build_prompt (lit "hello") none exampleSession none) = 1 :=
  ⟨fun _ => rfl, rfl, rfl, fun _ _ => rfl, by decide⟩

/-- C7: retrieval returns at most `limit` texts; every returned text is
one of the log's parsed records and has positive score; the returned
texts are ordered by score descending; the result is empty when the log
file is absent or no query token survives tokenization; and the sort is
stable — erasing file-position annotations commutes with it, and its
output is strictly ordered by score descending with ties in ascending
file order. -/
theorem C7_search_contract :
    (∀ (q : Str) (lim : Nat) (log : Option (List (Option Str))),
       (search_longterm_jsonl q lim log).length ≤ lim) ∧
    (∀ (q : Str) (lim : Nat) (lines : List (Option Str)) (t : Str),
       t ∈ search_longterm_jsonl q lim (some lines) →
         0 < lineScore (tokenize q) (pyLower t) ∧ some t ∈ lines) ∧
    (∀ (q : Str) (lim : Nat) (lines : List (Option Str)),
       ((search_longterm_jsonl q lim (some lines)).map
           (fun t => lineScore (tokenize q) (pyLower t))).Pairwise
         (fun a b => b ≤ a)) ∧
    (∀ (q : Str) (lim : Nat), search_longterm_jsonl q lim none = []) ∧
    (∀ (q : Str) (lim : Nat) (log : Option (List (Option Str))),
       tokenize q = [] → search_longterm_jsonl q lim log = []) ∧
    (∀ (q : Str) (lines : List (Option Str)),
       (sortDesc (annotate 0 (scoredRecords (tokenize q) lines))).map stripIdx =
         sortDesc (scoredRecords (tokenize q) lines) ∧
       (sortDesc (annotate 0 (scoredRecords (tokenize q) lines))).Pairwise StableRel) := by
  refine ⟨?_, ?_, ?_, ?_, ?_, ?_⟩
  · intro q lim log
    cases log with
    | none => simp [search_longterm_jsonl]
    | some lines =>
      by_cases h : tokenize q = []
      · simp [search_longterm_jsonl, h]
      · simp only [search_longterm_jsonl, if_neg h, List.length_map, List.length_take]
        exact min_le_left _ _
  · intro q lim lines t ht
    by_cases h : tokenize q = []
    · simp [search_longterm_jsonl, h] at ht
    · simp only [search_longterm_jsonl, if_neg h] at ht
      rcases List.mem_map.1 ht with ⟨p, hp, rfl⟩
      have hp2 := (sortDesc_perm _).mem_iff.1 (List.mem_of_mem_take hp)
      rcases scoredRecords_mem hp2 with ⟨h1, h2, h3⟩
      exact ⟨h1 ▸ h2, h3⟩
  · intro q lim lines
    by_cases h : tokenize q = []
    · simp [search_longterm_jsonl, h]
    · simp only [search_longterm_jsonl, if_neg h]
      rw [List.pairwise_map, List.pairwise_map]
      have hs := List.Pairwise.sublist (List.take_sublist lim _)
        (sortDesc_sorted (scoredRecords (tokenize q) lines))
      refine List.Pairwise.imp_of_mem ?_ hs
      intro a b ha hb hab
      have ha2 := (sortDesc_perm _).mem_iff.1 (List.mem_of_mem_take ha)
      have hb2 := (sortDesc_perm _).mem_iff.1 (List.mem_of_mem_take hb)
      rcases scoredRecords_mem ha2 with ⟨ha1, _, _⟩
      rcases scoredRecords_mem hb2 with ⟨hb1, _, _⟩
      rw [← ha1, ← hb1]
      exact hab
  · intro q lim
    rfl
  · intro q lim log h
    cases log with
    | none => rfl
    | some lines => simp [search_longterm_jsonl, h]
  · intro q lines
    exact ⟨by rw [sortDesc_map_stripIdx, annotate_map_stripIdx],
           sortDesc_stable (annotate_idx_sorted 0 _)⟩

/-- C7 witness: the contract applied to the spec's three-record log —
the top result of query `cat dog` is a parsed record of positive score,
and the one-character query `a` tokenizes to nothing and returns no
results. -/
theorem C7_witness :
    (0 < lineScore (tokenize (lit "cat dog"))
        (pyLower (lit "the cat and the dog played")) ∧
      some (lit "the cat and the dog played") ∈ ltLines) ∧
    search_longterm_jsonl (lit "a") 4 (some ltLines) = [] :=
  ⟨C7_search_contract.2.1 (lit "cat dog") 2 ltLines
      (lit "the cat and the dog played") (by decide),
   C7_search_contract.2.2.2.2.1 (lit "a") 4 (some ltLines) (by decide)⟩

/-- C8, claim as stated is false: the role string `" USER "` lies
outside the set `{user, assistant, system}`, yet `add_message` accepts
it (normalizing it to `user`) and mutates the persisted session rather
than raising. -/
theorem C8_counterexample :
    lit " USER " ∉ VALID_ROLES ∧
    (add_message (lit "T") (lit "S") exampleSession (lit " USER ") (lit "hi")
        startStore).1 =
      .ok ⟨lit "sid", lit "S", [⟨lit "user", lit "hi"⟩], []⟩ ∧
    (add_message (lit "T") (lit "S") exampleSession (lit " USER ") (lit "hi")
        startStore).2 ≠ startStore := by
  refine ⟨by decide, rfl, by decide⟩

/-- C8 (amended): for every role whose normalized (stripped, lowercased)
form lies outside `{user, assistant, system}`, `add_message` raises the
`ValueError` before loading or mutating any session state: the store is
returned exactly as it was. -/
theorem C8_rejects_invalid_normalized_role (tRot tSave : Str) (defa : Session)
    (role content : Str) (st : Store)
    (h : normalizeRole role ∉ VALID_ROLES) :
    add_message tRot tSave defa role content st =
      (.error (.valueError (lit "role must be one of: user, assistant, system")), st) := by
  rw [add_message, if_neg h]

/-- C8 witness: the amended statement at role `owner`. -/
theorem C8_witness :
    normalizeRole (lit "owner") ∉ VALID_ROLES ∧
    add_message (lit "T") (lit "S") exampleSession (lit "owner") (lit "hi") startStore =
      (.error (.valueError (lit "role must be one of: user, assistant, system")),
       startStore) :=
  ⟨by decide,
   C8_rejects_invalid_normalized_role (lit "T") (lit "S") exampleSession
     (lit "owner") (lit "hi") startStore (by decide)⟩

/-- C9, claim as stated is false: rotating a 21-message session whose
summary is `" x"` produces a summary beginning with the *stripped* text
`"x"`, so the previous summary text is not preserved unmodified as a
prefix of the new summary. -/
theorem C9_counterexample :
    MAX_CONVERSATION_TURNS < session21.conversation.length ∧
    session21.summary = lit " x" ∧
    ¬ (session21.summary <+: (summarize_and_prune (lit "T") session21).1.summary) := by
  refine ⟨by decide, by decide, by decide⟩

/-- C9 (amended): rotation replaces the summary by the *stripped*
previous summary (surrounding whitespace removed), followed — when that
stripped text is nonempty — by a blank line, then the timestamped
`[Auto summary @ ...]` header and the compressed overflow block; the
stripped previous summary is a prefix of the new summary, which is
strictly longer. -/
theorem C9_summary_grows_from_stripped (now : Str) (s : Session)
    (h : MAX_CONVERSATION_TURNS < s.conversation.length) :
    (summarize_and_prune now s).1.summary =
      (if pyStrip s.summary = [] then
        lit "[Auto summary @ " ++ now ++ lit "]\n" ++
          compress_messages
            (s.conversation.take (s.conversation.length - KEEP_RECENT_TURNS))
      else
        pyStrip s.summary ++ lit "\n\n[Auto summary @ " ++ now ++ lit "]\n" ++
          compress_messages
            (s.conversation.take (s.conversation.length - KEEP_RECENT_TURNS))) ∧
    pyStrip s.summary <+: (summarize_and_prune now s).1.summary ∧
    (pyStrip s.summary).length < ((summarize_and_prune now s).1.summary).length := by
  simp only [summarize_and_prune, if_neg (Nat.not_le.2 h)]
  have h16 : (lit "[Auto summary @ ").length = 16 := rfl
  have h18 : (lit "\n\n[Auto summary @ ").length = 18 := rfl
  by_cases hsum : pyStrip s.summary = []
  · rw [if_pos hsum]
    refine ⟨trivial, ?_, ?_⟩
    · rw [hsum]; exact List.nil_prefix
    · rw [hsum]
      simp only [List.length_append, List.length_nil]
      omega
  · rw [if_neg hsum]
    refine ⟨trivial, ?_, ?_⟩
    · exact (((List.prefix_append _ _).trans (List.prefix_append _ _)).trans
        (List.prefix_append _ _)).trans (List.prefix_append _ _)
    · simp only [List.length_append]
      omega

/-- C9 witness: the amended statement at the 21-message session whose
summary is `" x"`. -/
theorem C9_witness :
    MAX_CONVERSATION_TURNS < session21.conversation.length ∧
    ((summarize_and_prune (lit "T") session21).1.summary =
      (if pyStrip session21.summary = [] then
        lit "[Auto summary @ " ++ lit "T" ++ lit "]\n" ++
          compress_messages
            (session21.conversation.take
              (session21.conversation.length - KEEP_RECENT_TURNS))
      else
        pyStrip session21.summary ++ lit "\n\n[Auto summary @ " ++ lit "T" ++
          lit "]\n" ++
          compress_messages
            (session21.conversation.take
              (session21.conversation.length - KEEP_RECENT_TURNS))) ∧
    pyStrip session21.summary <+:
      (summarize_and_prune (lit "T") session21).1.summary ∧
    (pyStrip session21.summary).length <
      ((summarize_and_prune (lit "T") session21).1.summary).length) :=
  ⟨by decide, C9_summary_grows_from_stripped (lit "T") session21 (by decide)⟩

/-- C10: `add_message` strips and lowercases the role before the
validity check and before storage: every successful append stores the
normalized role as the last conversation entry, that normalized role is
one of the three (exactly lowercase) valid roles, and lowercasing it
again changes nothing. -/
theorem C10_role_normalized (tRot tSave : Str) (defa : Session)
    (role content : Str) (st : Store) (s2 : Session) (st2 : Store)
    (h : add_message tRot tSave defa role content st = (.ok s2, st2)) :
    s2.conversation.getLast? = some ⟨normalizeRole role, content⟩ ∧
    normalizeRole role ∈ VALID_ROLES ∧
    pyLower (normalizeRole role) = normalizeRole role := by
  by_cases hr : normalizeRole role ∈ VALID_ROLES
  · rw [add_message, if_pos hr] at h
    cases hload : load_session defa st with
    | error e =>
      rw [hload] at h
      exact absurd (congrArg Prod.fst h) (by simp)
    | ok p =>
      obtain ⟨sess1, st1⟩ := p
      rw [hload] at h
      have hs2 :
          ({ (summarize_and_prune tRot
              { sess1 with conversation :=
                  sess1.conversation ++
                    [({ role := normalizeRole role, content := content } : Message)]
            }).1 with last_updated := tSave } : Session) = s2 := by
        have hfst := congrArg Prod.fst h
        simpa [save_session] using hfst
      refine ⟨?_, hr, ?_⟩
      · rw [← hs2]
        show (summarize_and_prune tRot _).1.conversation.getLast? = _
        rw [summarize_and_prune_getLast_of_ne_nil _ _ (by simp)]
        exact List.getLast?_concat _
      · simp only [VALID_ROLES, List.mem_cons, List.not_mem_nil, or_false] at hr
        rcases hr with h1 | h1 | h1 <;> rw [h1] <;> decide
  · rw [add_message, if_neg hr] at h
    exact absurd (congrArg Prod.fst h) (by simp)

/-- C10 witness: the append with role `" USER "` succeeds, and the
stored message carries the normalized, exactly-lowercase role `user`. -/
theorem C10_witness :
    add_message (lit "T") (lit "S") exampleSession (lit " USER ") (lit "hi")
        startStore =
      (.ok (⟨lit "sid", lit "S", [⟨lit "user", lit "hi"⟩], []⟩ : Session),
       (⟨.valid ⟨lit "sid", lit "S", [⟨lit "user", lit "hi"⟩], []⟩,
         .valid exampleSession, []⟩ : Store)) ∧
    ((⟨lit "sid", lit "S", [⟨lit "user", lit "hi"⟩], []⟩ : Session).conversation.getLast? =
        some ⟨normalizeRole (lit " USER "), lit "hi"⟩ ∧
      normalizeRole (lit " USER ") ∈ VALID_ROLES ∧
      pyLower (normalizeRole (lit " USER ")) = normalizeRole (lit " USER ")) :=
  ⟨rfl,
   C10_role_normalized (lit "T") (lit "S") exampleSession (lit " USER ") (lit "hi")
     startStore _ _ rfl⟩

end Memora

